import Mathlib

/-!
Shallow embedding of the mongo-orm repository (src/mongo_orm/base.py):
field descriptors, the metaclass registration step, and the document
model operations (attribute write interception, default resolution,
field validation, save).

Python values are modelled by the inductive type Value; Python
truthiness, isinstance, and dict operations are modelled explicitly.
Exceptions are modelled by the Exc type; an operation that can raise
returns an Except result together with the object state as it stands
when the operation finishes or raises.
-/

/-- Python runtime values used by the library: None, booleans, integers,
strings, bson ObjectId values (opaque identifiers), and zero-argument
callables (used as lazy defaults). -/
inductive Value where
  | none
  | bool (b : Bool)
  | int (n : Int)
  | str (s : String)
  | oid (n : Nat)
  | callable (f : Unit → Value)

/-- The Python types that appear as field types in base.py:
str, int, bool, float, bson.ObjectId, and the metatype `type`
(used by CommonField). -/
inductive PyType where
  | str
  | int
  | bool
  | float
  | objectId
  | type
deriving DecidableEq

/-- Python exceptions raised by the code paths of base.py. -/
inductive Exc where
  | typeError (msg : String)
  | runtimeError (msg : String)
  | keyError (key : String)
  | attributeError (key : String)
  | valueError (msg : String)
deriving DecidableEq

/-- Python truthiness of a Value. Callables and ObjectId instances are
always truthy; None is falsy; numbers, booleans and strings follow the
usual Python rules. -/
def truthy : Value → Bool
  | .none => false
  | .bool b => b
  | .int n => n != 0
  | .str s => s != ""
  | .oid _ => true
  | .callable _ => true

/-- The Python test `value is None`. -/
def Value.isNone : Value → Bool
  | .none => true
  | _ => false

/-- The Python `callable(value)` test, restricted to the values of this
model. -/
def pyCallable : Value → Bool
  | .callable _ => true
  | _ => false

/-- `field.default() if callable(field.default) else field.default`:
invoke a callable, return any other value unchanged. -/
def callValue : Value → Value
  | .callable f => f ()
  | v => v

/-- Python `isinstance` for the values and types of this model.
`bool` is a subclass of `int` in Python, so booleans are instances of
both bool and int; no modelled value is an instance of `type` or
`float`. -/
def isinstance : Value → PyType → Bool
  | .str _, .str => true
  | .int _, .int => true
  | .bool _, .bool => true
  | .bool _, .int => true
  | .oid _, .objectId => true
  | _, _ => false

/-- Association-list model of a Python dict keyed by strings: lookup of
the (unique) binding for a key. -/
def dictGet {α : Type} : List (String × α) → String → Option α
  | [], _ => Option.none
  | (k', v) :: rest, k => if k' = k then some v else dictGet rest k

/-- Whether a key is bound in the dict. -/
def hasKey {α : Type} : List (String × α) → String → Bool
  | [], _ => false
  | (k', _) :: rest, k => if k' = k then true else hasKey rest k

/-- Rebinding of a key that is already present, keeping its position. -/
def replaceKey {α : Type} : List (String × α) → String → α → List (String × α)
  | [], _, _ => []
  | (k', v') :: rest, k, v =>
    if k' = k then (k, v) :: replaceKey rest k v
    else (k', v') :: replaceKey rest k v

/-- Python dict assignment `d[k] = v`: replace the binding in place when
the key is present, append a new binding otherwise. -/
def dictSet {α : Type} (d : List (String × α)) (k : String) (v : α) :
    List (String × α) :=
  if hasKey d k then replaceKey d k v else d ++ [(k, v)]

/-- Python `d.pop(k, None)`: remove the binding for a key. -/
def dictPop {α : Type} : List (String × α) → String → List (String × α)
  | [], _ => []
  | (k', v') :: rest, k =>
    if k' = k then dictPop rest k else (k', v') :: dictPop rest k

/-- MongoField from base.py: a field descriptor with the database field
name, the expected Python type, a default (a plain value or a callable),
the primary-key flag, the required and unique flags, the type-check flag,
and an optional user validator. The user validator is modelled as a
function from the candidate value to an optional raised exception.
The constructor checks of MongoField (field_name must be a string,
field_type must be a type) hold by typing in this embedding. -/
structure MongoField where
  field_name : String
  field_type : PyType
  default : Value
  pk : Bool
  required : Bool
  unique : Bool
  type_check : Bool
  validation : Option (Value → Option Exc)

/-- MongoField.validate from base.py: when type_check is set, raise
TypeError if the value is not an instance of the field type; then, when
a validator is supplied, invoke it and propagate whatever it raises. -/
def MongoField.validate (f : MongoField) (value : Value) : Except Exc Unit :=
  if f.type_check ∧ ¬ (isinstance value f.field_type) then
    .error (.typeError "value is not an instance of the field type")
  else
    match f.validation with
    | some g =>
      match g value with
      | some e => .error e
      | Option.none => .ok ()
    | Option.none => .ok ()

/-- StringField from base.py. -/
def StringField (field_name : String) (default : Value)
    (required unique type_check : Bool)
    (validation : Option (Value → Option Exc)) : MongoField :=
  ⟨field_name, .str, default, false, required, unique, type_check, validation⟩

/-- IntegerField from base.py. -/
def IntegerField (field_name : String) (default : Value)
    (required unique type_check : Bool)
    (validation : Option (Value → Option Exc)) : MongoField :=
  ⟨field_name, .int, default, false, required, unique, type_check, validation⟩

/-- BooleanField from base.py. -/
def BooleanField (field_name : String) (default : Value)
    (required unique type_check : Bool)
    (validation : Option (Value → Option Exc)) : MongoField :=
  ⟨field_name, .bool, default, false, required, unique, type_check, validation⟩

/-- FloatField from base.py. -/
def FloatField (field_name : String) (default : Value)
    (required unique type_check : Bool)
    (validation : Option (Value → Option Exc)) : MongoField :=
  ⟨field_name, .float, default, false, required, unique, type_check, validation⟩

/-- CommonField from base.py: field type fixed to the metatype, type
checking disabled, never a primary key. -/
def CommonField (field_name : String) (default : Value)
    (required unique : Bool)
    (validation : Option (Value → Option Exc)) : MongoField :=
  ⟨field_name, .type, default, false, required, unique, false, validation⟩

/-- The internal _IdField from base.py: database name _id, type
bson.ObjectId, default None, primary key, with required, unique and
type_check all disabled and no validator. -/
def _IdField : MongoField :=
  ⟨"_id", .objectId, .none, true, false, false, false, Option.none⟩

/-- A class-body attribute value: either a MongoField descriptor or a
plain (non-descriptor) value. -/
inductive Attr where
  | field (f : MongoField)
  | plain (v : Value)

/-- Python truthiness of a class-body attribute: MongoField objects are
always truthy. -/
def attrTruthy : Attr → Bool
  | .field _ => true
  | .plain v => truthy v

/-- Lower-casing of one ASCII character, as str.lower acts on the
class names appearing here. -/
def lowerCh (c : Char) : Char :=
  if c.toNat ≥ 65 ∧ c.toNat ≤ 90 then Char.ofNat (c.toNat + 32) else c

/-- Python str.lower restricted to ASCII class names. -/
def pyLower (s : String) : String := String.mk (s.data.map lowerCh)

/-- Truthiness of the pk variable of ModelMetaclass.__new__: it starts
as None and is later set to an attribute name, and the source tests it
with a plain `if pk:`, so an empty-string name also counts as falsy. -/
def truthyStrOpt : Option String → Bool
  | some s => s != ""
  | Option.none => false

/-- The RuntimeError raised on a second primary-key candidate. The
source passes the offending name as a stray argument that is never
interpolated, so the message is this constant text. -/
def dupPkError : Exc := .runtimeError "Duplicate primary key for field: %s"

/-- The RuntimeError raised when no primary key was found. -/
def noPkError : Exc := .runtimeError "Primary key not found."

/-- Accumulator of the att. scan loop of ModelMetaclass.__new__:
the mappings dict, the list of unmapped attribute names, the primary
key candidate, and the rewritten class attribute dict (each MongoField
entry replaced by its default value). -/
structure RegState where
  ms : List (String × MongoField)
  fs : List String
  pk : Option String
  out : List (String × Value)

abbrev Dict := List (String × Value)

/-- The `for k, v in attrs.items()` loop of ModelMetaclass.__new__:
MongoField entries are collected into mappings and rewritten on the
class to their default value; a second truthy primary-key candidate
raises RuntimeError; non-field entries are recorded by name. -/
def regLoop : List (String × Attr) → RegState → Except Exc RegState
  | [], st => .ok st
  | (k, .field f) :: rest, st =>
    if f.pk then
      if truthyStrOpt st.pk then
        .error dupPkError
      else
        regLoop rest ⟨st.ms ++ [(k, f)], st.fs, some k, st.out ++ [(k, f.default)]⟩
    else
      regLoop rest ⟨st.ms ++ [(k, f)], st.fs, st.pk, st.out ++ [(k, f.default)]⟩
  | (k, .plain v) :: rest, st =>
    regLoop rest ⟨st.ms, st.fs ++ [k], st.pk, st.out ++ [(k, v)]⟩

/-- The schema metadata attached to a registered model class:
table name (an attribute value, since a truthy __table__ override is
used as is), the mappings dict, the primary-key attribute name, the
unmapped attribute names, and the rewritten class attribute dict. -/
structure Schema where
  table_name : Attr
  mappings : List (String × MongoField)
  pk : String
  fields : List String
  classAttrs : Dict

/-- ModelMetaclass.__new__ from base.py. For the root class Model the
registration step is skipped (no schema). Otherwise: resolve the table
name from a truthy __table__ attribute or the lower-cased class name,
inject the implicit identity field by the dict assignment
`attrs[_id] = _IdField()` (which overwrites an existing _id entry in
place), run the scan loop, and fail with RuntimeError when the final
primary-key candidate is falsy. -/
def modelMetaclassNew (name : String) (attrs : List (String × Attr)) :
    Except Exc (Option Schema) :=
  if name = "Model" then .ok Option.none
  else
    let table : Attr :=
      match dictGet attrs "__table__" with
      | some a => if attrTruthy a then a else .plain (.str (pyLower name))
      | Option.none => .plain (.str (pyLower name))
    match regLoop (dictSet attrs "_id" (.field _IdField)) ⟨[], [], Option.none, []⟩ with
    | .error e => .error e
    | .ok st =>
      if truthyStrOpt st.pk then
        .ok (some ⟨table, st.ms, st.pk.getD "", st.fs, st.out⟩)
      else
        .error noPkError

/-- Attribute lookup on an instance: the instance __dict__ first, then
the class attributes (where registration stored each field default). -/
def pyGetattr (d ca : Dict) (k : String) : Option Value :=
  match dictGet d k with
  | some v => some v
  | Option.none => dictGet ca k

/-- The value `getattr(self, k, None)` yields for an instance with
__dict__ d of a class with schema cls. -/
def effValue (cls : Schema) (d : Dict) (k : String) : Value :=
  (pyGetattr d cls.classAttrs k).getD Value.none

/-- Model.__setattr__ from base.py, acting on the class-level modified
list and the instance __dict__: a mapped attribute is validated first
(a raised error leaves both untouched), then its name is appended to
the modified list and the value stored; an unmapped attribute is stored
directly with no validation and no dirty tracking. -/
def Model.setattr (cls : Schema) (key : String) (value : Value)
    (mod : List String) (d : Dict) : Except Exc Unit × List String × Dict :=
  match dictGet cls.mappings key with
  | some f =>
    match f.validate value with
    | .error e => (.error e, mod, d)
    | .ok () => (.ok (), mod ++ [key], dictSet d key value)
  | Option.none => (.ok (), mod, dictSet d key value)

/-- Model.get_value_or_default from base.py: read the attribute with a
None fallback; when the read value is None, look the field up in the
mappings dict (KeyError when unmapped) and, only when the field default
is falsy, resolve the default (invoking a callable) and store it through
the regular validated write, then return it. -/
def Model.get_value_or_default (cls : Schema) (key : String)
    (mod : List String) (d : Dict) : Except Exc Value × List String × Dict :=
  let value := (pyGetattr d cls.classAttrs key).getD Value.none
  if value.isNone then
    match dictGet cls.mappings key with
    | Option.none => (.error (.keyError key), mod, d)
    | some field =>
      if truthy field.default then
        (.ok value, mod, d)
      else
        let value2 := callValue field.default
        match Model.setattr cls key value2 mod d with
        | (.ok _, mod2, d2) => (.ok value2, mod2, d2)
        | (.error e, mod2, d2) => (.error e, mod2, d2)
  else
    (.ok value, mod, d)

/-- The body of Model.validate_fields: run validate for each mapped
field on the value getattr(self, name, None) yields, stopping at the
first raised error. -/
def validateFieldsAux (d ca : Dict) :
    List (String × MongoField) → Except Exc Unit
  | [] => .ok ()
  | (k, f) :: rest =>
    match f.validate ((pyGetattr d ca k).getD Value.none) with
    | .error e => .error e
    | .ok () => validateFieldsAux d ca rest

/-- Model.validate_fields from base.py. -/
def Model.validate_fields (cls : Schema) (d : Dict) : Except Exc Unit :=
  validateFieldsAux d cls.classAttrs cls.mappings

/-- The dict Model.__str__ renders: every mapped attribute with its
current value, with the identity entry removed when its value is falsy
(a missing identity entry would raise KeyError). -/
def Model.strDict (cls : Schema) (d : Dict) : Except Exc Dict :=
  let diction := cls.mappings.map (fun p => (p.1, effValue cls d p.1))
  match dictGet diction "_id" with
  | Option.none => .error (.keyError "_id")
  | some v => .ok (if truthy v then diction else dictPop diction "_id")

/-- The dict comprehension of the update branch of Model.save:
`getattr(self, k)` for each k in the modified list, raising
AttributeError when an attribute is missing everywhere. -/
def queryOfAux (d ca : Dict) : List String → Dict → Except Exc Dict
  | [], acc => .ok acc
  | k :: rest, acc =>
    match pyGetattr d ca k with
    | Option.none => .error (.attributeError k)
    | some v => queryOfAux d ca rest (dictSet acc k v)

/-- The update payload of Model.save built from the modified list. -/
def queryOf (d ca : Dict) (mod : List String) : Except Exc Dict :=
  queryOfAux d ca mod []

/-- What Model.save hands to the persistence stub: an insert of the
rendered document into the table, or an update of the document with the
given identity value by a set-style payload. -/
inductive SaveAction where
  | insert (table : Attr) (doc : Dict)
  | update (idVal : Value) (setQuery : Dict)

/-- Model.save from base.py: run validate_fields (a raised error aborts
with the state untouched); when the identity attribute is truthy, build
the set-style payload from the modified list, then clear the modified
list; otherwise render the document for the insert log, then clear the
modified list. The persistence stub only logs, and the modified list is
cleared with no regard to any outcome of persistence. -/
def Model.save (cls : Schema) (mod : List String) (d : Dict) :
    Except Exc SaveAction × List String × Dict :=
  match Model.validate_fields cls d with
  | .error e => (.error e, mod, d)
  | .ok () =>
    if truthy (effValue cls d "_id") then
      match queryOf d cls.classAttrs mod with
      | .error e => (.error e, mod, d)
      | .ok q => (.ok (.update (effValue cls d "_id") q), [], d)
    else
      match Model.strDict cls d with
      | .error e => (.error e, mod, d)
      | .ok doc => (.ok (.insert cls.table_name doc), [], d)

/-- A model class at runtime: its schema and its class-level __modified__
list. The source stores __modified__ as a class attribute created once
at registration, and instances never rebind it, so every instance of the
class reads and mutates this one list. -/
structure ClassRt where
  schema : Schema
  modified : List String

/-- A fresh instance: Model defines no __init__, so a new instance has
an empty __dict__. -/
def newInstance : Dict := []

/-- The dirty list an instance observes as self.__modified__: the lookup
falls through the empty instance binding to the class attribute. -/
def instDirtyAttrs (c : ClassRt) (_d : Dict) : List String :=
  c.modified

/-- An attribute write routed through a runtime class: Model.__setattr__
acting on the shared class-level modified list and the written instance
__dict__. -/
def rtSetattr (c : ClassRt) (d : Dict) (key : String) (v : Value) :
    Except Exc Unit × ClassRt × Dict :=
  match Model.setattr c.schema key v c.modified d with
  | (r, mod2, d2) => (r, ⟨c.schema, mod2⟩, d2)

/-- The class body of examples/helloworld.py:
name = StringField with database name user_name and type checking on. -/
def userNameField : MongoField :=
  StringField "user_name" Value.none false false true Option.none

/-- The class body of examples/helloworld.py:
test_field = CommonField with database name test and default -9999. -/
def testField : MongoField :=
  CommonField "test" (Value.int (-9999)) false false Option.none

/-- The declared attributes of the User class of examples/helloworld.py. -/
def userAttrs : List (String × Attr) :=
  [("name", .field userNameField), ("test_field", .field testField)]

/-- The schema registration produces for the User class. -/
def userSchema : Schema :=
  ⟨.plain (.str "user"),
   [("name", userNameField), ("test_field", testField), ("_id", _IdField)],
   "_id",
   [],
   [("name", Value.none), ("test_field", Value.int (-9999)), ("_id", Value.none)]⟩

/-- The MongoField entries of a class-body attribute dict, in order. -/
def fieldEntries (l : List (String × Attr)) : List (String × MongoField) :=
  l.filterMap (fun p =>
    match p.2 with
    | .field f => some (p.1, f)
    | .plain _ => Option.none)

/-- How many MongoField entries of an attribute dict carry the
primary-key flag. -/
def pkFieldCount (l : List (String × Attr)) : Nat :=
  (fieldEntries l).countP (fun p => p.2.pk)

/-- The primary-key candidate count after the implicit identity-field
injection `attrs[_id] = _IdField()`. -/
def pkCountAfterInjection (attrs : List (String × Attr)) : Nat :=
  pkFieldCount (dictSet attrs "_id" (.field _IdField))

/-- A field whose validator can raise, as used in witnesses: rejects
the empty string with a ValueError. -/
def nonEmptyStrField : MongoField :=
  StringField "nes" Value.none false false true
    (some (fun v =>
      match v with
      | .str "" => some (.valueError "empty string")
      | _ => Option.none))


/-! Helper lemmas about the dict model. -/

theorem dictGet_cons {α : Type} (k k' : String) (v : α) (d : List (String × α)) :
    dictGet ((k', v) :: d) k = if k' = k then some v else dictGet d k := rfl

theorem dictGet_append {α : Type} (d d2 : List (String × α)) (k : String) :
    dictGet (d ++ d2) k =
      match dictGet d k with
      | some v => some v
      | Option.none => dictGet d2 k := by
  induction d with
  | nil => simp [dictGet]
  | cons p rest ih =>
    obtain ⟨p1, p2⟩ := p
    by_cases hp : p1 = k
    · simp [dictGet, hp]
    · simp [dictGet, hp, ih]

theorem dictGet_replaceKey_self {α : Type} (d : List (String × α)) (k : String) (v : α)
    (hk : hasKey d k = true) : dictGet (replaceKey d k v) k = some v := by
  induction d with
  | nil => simp [hasKey] at hk
  | cons p rest ih =>
    obtain ⟨p1, p2⟩ := p
    by_cases hp : p1 = k
    · simp [replaceKey, hp, dictGet]
    · simp only [hasKey, if_neg hp] at hk
      simp [replaceKey, hp, dictGet, ih hk]

theorem dictGet_dictSet_self {α : Type} (d : List (String × α)) (k : String) (v : α) :
    dictGet (dictSet d k v) k = some v := by
  unfold dictSet
  split
  · rename_i hk
    exact dictGet_replaceKey_self d k v hk
  · rw [dictGet_append]
    induction d with
    | nil => simp [dictGet]
    | cons p rest ih =>
      rename_i hk
      obtain ⟨p1, p2⟩ := p
      have hp : ¬ p1 = k := by
        intro h
        simp [hasKey, h] at hk
      have hrest : ¬ hasKey rest k = true := by
        intro h
        simp [hasKey, hp, h] at hk
      simpa [dictGet, hp] using ih hrest

theorem dictGet_replaceKey_ne {α : Type} (d : List (String × α)) (k k' : String) (v : α)
    (h : k' ≠ k) : dictGet (replaceKey d k' v) k = dictGet d k := by
  induction d with
  | nil => simp [replaceKey]
  | cons p rest ih =>
    obtain ⟨p1, p2⟩ := p
    by_cases hp : p1 = k'
    · have hpk : ¬ (p1 = k) := by
        rw [hp]
        exact h
      simp [replaceKey, hp, dictGet, hpk, h, ih]
    · simp [replaceKey, hp, dictGet, ih]

theorem dictGet_dictSet_ne {α : Type} (d : List (String × α)) (k k' : String) (v : α)
    (h : k' ≠ k) : dictGet (dictSet d k' v) k = dictGet d k := by
  unfold dictSet
  split
  · exact dictGet_replaceKey_ne d k k' v h
  · rw [dictGet_append]
    cases hd : dictGet d k with
    | none => simp [dictGet, h]
    | some v' => simp

theorem dictSet_mem_self {α : Type} (d : List (String × α)) (k : String) (v : α) :
    (k, v) ∈ dictSet d k v := by
  unfold dictSet
  split
  · rename_i hk
    induction d with
    | nil => simp [hasKey] at hk
    | cons p rest ih =>
      obtain ⟨p1, p2⟩ := p
      by_cases hp : p1 = k
      · simp [replaceKey, hp]
      · simp only [hasKey, if_neg hp] at hk
        simp [replaceKey, hp, ih hk]
  · simp

theorem replaceKey_all_eq {α : Type} (d : List (String × α)) (k : String) (v : α) :
    ∀ p ∈ replaceKey d k v, p.1 = k → p.2 = v := by
  induction d with
  | nil => simp [replaceKey]
  | cons q rest ih =>
    obtain ⟨q1, q2⟩ := q
    intro p hp hpk
    by_cases hq : q1 = k
    · simp only [replaceKey, if_pos hq, List.mem_cons] at hp
      rcases hp with h1 | h2
      · rw [h1]
      · exact ih p h2 hpk
    · simp only [replaceKey, if_neg hq, List.mem_cons] at hp
      rcases hp with h1 | h2
      · exfalso
        apply hq
        rw [← hpk, h1]
      · exact ih p h2 hpk

theorem hasKey_of_mem {α : Type} (d : List (String × α)) (k : String) (p : String × α)
    (hp : p ∈ d) (hpk : p.1 = k) : hasKey d k = true := by
  induction d with
  | nil => simp at hp
  | cons q rest ih =>
    obtain ⟨q1, q2⟩ := q
    rcases List.mem_cons.mp hp with h1 | h2
    · have : q1 = k := by
        rw [h1] at hpk
        exact hpk
      simp [hasKey, this]
    · by_cases hq : q1 = k
      · simp [hasKey, hq]
      · simp [hasKey, hq, ih h2]

theorem dictSet_all_eq {α : Type} (d : List (String × α)) (k : String) (v : α) :
    ∀ p ∈ dictSet d k v, p.1 = k → p.2 = v := by
  unfold dictSet
  split
  · exact replaceKey_all_eq d k v
  · rename_i hk
    intro p hp hpk
    rcases List.mem_append.mp hp with h1 | h2
    · exact absurd (hasKey_of_mem d k p h1 hpk) hk
    · have : p = (k, v) := by simpa using h2
      rw [this]

theorem replaceKey_keys {α : Type} (d : List (String × α)) (k : String) (v : α) :
    ∀ p ∈ replaceKey d k v, p.1 = k ∨ ∃ q ∈ d, p.1 = q.1 := by
  induction d with
  | nil => simp [replaceKey]
  | cons q rest ih =>
    obtain ⟨q1, q2⟩ := q
    intro p hp
    by_cases hq : q1 = k
    · simp only [replaceKey, if_pos hq, List.mem_cons] at hp
      rcases hp with h1 | h2
      · left
        rw [h1]
      · rcases ih p h2 with h | ⟨r, hr, hre⟩
        · left
          exact h
        · right
          exact ⟨r, List.mem_cons_of_mem _ hr, hre⟩
    · simp only [replaceKey, if_neg hq, List.mem_cons] at hp
      rcases hp with h1 | h2
      · right
        exact ⟨(q1, q2), List.mem_cons_self _ _, by rw [h1]⟩
      · rcases ih p h2 with h | ⟨r, hr, hre⟩
        · left
          exact h
        · right
          exact ⟨r, List.mem_cons_of_mem _ hr, hre⟩

theorem dictSet_keys {α : Type} (d : List (String × α)) (k : String) (v : α) :
    ∀ p ∈ dictSet d k v, p.1 = k ∨ ∃ q ∈ d, p.1 = q.1 := by
  unfold dictSet
  split
  · exact replaceKey_keys d k v
  · intro p hp
    rcases List.mem_append.mp hp with h1 | h2
    · right
      exact ⟨p, h1, rfl⟩
    · left
      have : p = (k, v) := by simpa using h2
      rw [this]

theorem dictGet_of_all {α : Type} (d : List (String × α)) (k : String) (v : α)
    (hex : ∃ p ∈ d, p.1 = k) (hall : ∀ p ∈ d, p.1 = k → p.2 = v) :
    dictGet d k = some v := by
  induction d with
  | nil => simp at hex
  | cons p rest ih =>
    obtain ⟨p1, p2⟩ := p
    by_cases hp : p1 = k
    · have : p2 = v := hall (p1, p2) (List.mem_cons_self _ _) hp
      simp [dictGet, hp, this]
    · rw [dictGet_cons, if_neg hp]
      apply ih
      · rcases hex with ⟨q, hq, hqk⟩
        rcases List.mem_cons.mp hq with h1 | h2
        · exfalso
          apply hp
          rw [h1] at hqk
          exact hqk
        · exact ⟨q, h2, hqk⟩
      · intro q hq hqk
        exact hall q (List.mem_cons_of_mem _ hq) hqk

theorem dictGet_dictPop_self {α : Type} (d : List (String × α)) (k : String) :
    dictGet (dictPop d k) k = Option.none := by
  induction d with
  | nil => rfl
  | cons p rest ih =>
    obtain ⟨p1, p2⟩ := p
    by_cases hp : p1 = k
    · simp [dictPop, hp, ih]
    · simp [dictPop, hp, dictGet, ih]

theorem dictGet_dictPop_ne {α : Type} (d : List (String × α)) (k k' : String)
    (h : k ≠ k') : dictGet (dictPop d k') k = dictGet d k := by
  induction d with
  | nil => rfl
  | cons p rest ih =>
    obtain ⟨p1, p2⟩ := p
    by_cases hp : p1 = k'
    · have hp2 : ¬ (p1 = k) := by
        rw [hp]
        exact fun hh => h hh.symm
      simp [dictPop, hp, dictGet, hp2, ih, Ne.symm h]
    · simp [dictPop, hp, dictGet, ih]

theorem dictGet_mapSnd (l : List (String × MongoField)) (g : String → Value) (k : String) :
    dictGet (l.map (fun p => (p.1, g p.1))) k = (dictGet l k).map (fun _ => g k) := by
  induction l with
  | nil => rfl
  | cons p rest ih =>
    obtain ⟨p1, p2⟩ := p
    by_cases hp : p1 = k
    · simp [dictGet, hp]
    · simp [dictGet, hp, ih]

/-! Helper lemmas about the registration loop. -/

theorem fieldEntries_nil : fieldEntries [] = [] := rfl

theorem fieldEntries_cons_field (k : String) (f : MongoField) (rest : List (String × Attr)) :
    fieldEntries ((k, .field f) :: rest) = (k, f) :: fieldEntries rest := rfl

theorem fieldEntries_cons_plain (k : String) (v : Value) (rest : List (String × Attr)) :
    fieldEntries ((k, .plain v) :: rest) = fieldEntries rest := rfl

theorem regLoop_error_eq (l : List (String × Attr)) :
    ∀ (st : RegState) (e : Exc), regLoop l st = .error e → e = dupPkError := by
  induction l with
  | nil =>
    intro st e h
    simp [regLoop] at h
  | cons p rest ih =>
    intro st e h
    obtain ⟨k, a⟩ := p
    cases a with
    | plain v =>
      simp only [regLoop] at h
      exact ih _ _ h
    | field f =>
      simp only [regLoop] at h
      by_cases hpk : f.pk
      · rw [if_pos hpk] at h
        by_cases ht : truthyStrOpt st.pk
        · rw [if_pos ht] at h
          exact (Except.error.inj h).symm
        · rw [if_neg ht] at h
          exact ih _ _ h
      · rw [if_neg hpk] at h
        exact ih _ _ h

theorem regLoop_ok_ms (l : List (String × Attr)) :
    ∀ (st st' : RegState), regLoop l st = .ok st' →
      st'.ms = st.ms ++ fieldEntries l := by
  induction l with
  | nil =>
    intro st st' h
    simp only [regLoop] at h
    rw [← Except.ok.inj h]
    simp [fieldEntries_nil]
  | cons p rest ih =>
    intro st st' h
    obtain ⟨k, a⟩ := p
    cases a with
    | plain v =>
      simp only [regLoop] at h
      rw [fieldEntries_cons_plain]
      have := ih ⟨st.ms, st.fs ++ [k], st.pk, st.out ++ [(k, v)]⟩ st' h
      simpa using this
    | field f =>
      simp only [regLoop] at h
      rw [fieldEntries_cons_field]
      by_cases hpk : f.pk
      · rw [if_pos hpk] at h
        by_cases ht : truthyStrOpt st.pk
        · rw [if_pos ht] at h
          exact absurd h (by simp)
        · rw [if_neg ht] at h
          have := ih ⟨st.ms ++ [(k, f)], st.fs, some k, st.out ++ [(k, f.default)]⟩ st' h
          simpa using this
      · rw [if_neg hpk] at h
        have := ih ⟨st.ms ++ [(k, f)], st.fs, st.pk, st.out ++ [(k, f.default)]⟩ st' h
        simpa using this

theorem regLoop_pk_mono (l : List (String × Attr)) :
    ∀ (st st' : RegState), truthyStrOpt st.pk = true → regLoop l st = .ok st' →
      st'.pk = st.pk := by
  induction l with
  | nil =>
    intro st st' _ h
    simp only [regLoop] at h
    rw [← Except.ok.inj h]
  | cons p rest ih =>
    intro st st' ht h
    obtain ⟨k, a⟩ := p
    cases a with
    | plain v =>
      simp only [regLoop] at h
      have := ih ⟨st.ms, st.fs ++ [k], st.pk, st.out ++ [(k, v)]⟩ st' (by simpa using ht) h
      simpa using this
    | field f =>
      simp only [regLoop] at h
      by_cases hpk : f.pk
      · rw [if_pos hpk, if_pos ht] at h
        exact absurd h (by simp)
      · rw [if_neg hpk] at h
        have := ih ⟨st.ms ++ [(k, f)], st.fs, st.pk, st.out ++ [(k, f.default)]⟩ st' (by simpa using ht) h
        simpa using this

theorem regLoop_pk_of_mem (l : List (String × Attr)) :
    ∀ (st st' : RegState) (k0 : String) (f0 : MongoField),
      (k0, Attr.field f0) ∈ l → f0.pk = true → k0 ≠ "" →
      regLoop l st = .ok st' → truthyStrOpt st'.pk = true := by
  induction l with
  | nil =>
    intro st st' k0 f0 hmem
    simp at hmem
  | cons p rest ih =>
    intro st st' k0 f0 hmem hf0 hk0 h
    obtain ⟨k, a⟩ := p
    cases a with
    | plain v =>
      simp only [regLoop] at h
      rcases List.mem_cons.mp hmem with h1 | h2
      · exact absurd h1 (by simp)
      · exact ih _ _ _ _ h2 hf0 hk0 h
    | field f =>
      simp only [regLoop] at h
      by_cases hpk : f.pk
      · rw [if_pos hpk] at h
        by_cases ht : truthyStrOpt st.pk
        · rw [if_pos ht] at h
          exact absurd h (by simp)
        · rw [if_neg ht] at h
          by_cases hkt : k = ""
          · rcases List.mem_cons.mp hmem with h1 | h2
            · exfalso
              apply hk0
              have := congrArg Prod.fst h1
              simp at this
              rw [this, hkt]
            · exact ih _ _ _ _ h2 hf0 hk0 h
          · have hm := regLoop_pk_mono rest
              ⟨st.ms ++ [(k, f)], st.fs, some k, st.out ++ [(k, f.default)]⟩ st'
              (by simpa [truthyStrOpt] using hkt) h
            rw [hm]
            simpa [truthyStrOpt] using hkt
      · rw [if_neg hpk] at h
        rcases List.mem_cons.mp hmem with h1 | h2
        · exfalso
          have : Attr.field f0 = Attr.field f := congrArg Prod.snd h1
          have hff : f0 = f := by injection this
          rw [← hff] at hpk
          exact hpk hf0
        · exact ih _ _ _ _ h2 hf0 hk0 h

theorem regLoop_ok_iff (l : List (String × Attr)) :
    ∀ (st : RegState), (∀ p ∈ l, p.1 ≠ "") →
      ((∃ st', regLoop l st = .ok st') ↔
        pkFieldCount l + (if truthyStrOpt st.pk then 1 else 0) ≤ 1) := by
  induction l with
  | nil =>
    intro st _
    constructor
    · intro _
      simp only [pkFieldCount, fieldEntries_nil, List.countP_nil, Nat.zero_add]
      split <;> omega
    · intro _
      exact ⟨st, rfl⟩
  | cons p rest ih =>
    intro st hkeys
    obtain ⟨k, a⟩ := p
    have hkeys2 : ∀ p ∈ rest, p.1 ≠ "" := by
      intro q hq
      exact hkeys q (List.mem_cons_of_mem _ hq)
    cases a with
    | plain v =>
      have hrec := ih ⟨st.ms, st.fs ++ [k], st.pk, st.out ++ [(k, v)]⟩ hkeys2
      simp only [regLoop, pkFieldCount, fieldEntries_cons_plain]
      simpa [pkFieldCount] using hrec
    | field f =>
      by_cases hpk : f.pk
      · have hcnt : pkFieldCount ((k, Attr.field f) :: rest) = pkFieldCount rest + 1 := by
          simp [pkFieldCount, fieldEntries_cons_field, List.countP_cons, hpk]
        by_cases ht : truthyStrOpt st.pk
        · constructor
          · intro hok
            obtain ⟨st', hst'⟩ := hok
            simp only [regLoop, if_pos hpk, if_pos ht] at hst'
            exact absurd hst' (by simp)
          · intro hle
            rw [hcnt, if_pos ht] at hle
            omega
        · have hk : k ≠ "" := hkeys (k, Attr.field f) (List.mem_cons_self _ _)
          have hkt : truthyStrOpt (some k) = true := by
            simpa [truthyStrOpt] using hk
          have hrec := ih ⟨st.ms ++ [(k, f)], st.fs, some k, st.out ++ [(k, f.default)]⟩ hkeys2
          simp only [regLoop, if_pos hpk, if_neg ht]
          rw [hcnt]
          have hpkproj :
              ({ ms := st.ms ++ [(k, f)], fs := st.fs, pk := some k,
                 out := st.out ++ [(k, f.default)] } : RegState).pk = some k := rfl
          rw [hpkproj, if_pos hkt] at hrec
          rw [hrec]
      · have hcnt : pkFieldCount ((k, Attr.field f) :: rest) = pkFieldCount rest := by
          simp [pkFieldCount, fieldEntries_cons_field, List.countP_cons, hpk]
        have hrec := ih ⟨st.ms ++ [(k, f)], st.fs, st.pk, st.out ++ [(k, f.default)]⟩ hkeys2
        simp only [regLoop, if_neg hpk]
        rw [hcnt]
        simpa using hrec

/-! Helper lemmas about ModelMetaclass.__new__. -/

theorem mem_replaceKey_of_ne {α : Type} (d : List (String × α)) (k : String) (v : α)
    (p : String × α) (hp : p ∈ d) (hne : p.1 ≠ k) : p ∈ replaceKey d k v := by
  induction d with
  | nil => simp at hp
  | cons q rest ih =>
    obtain ⟨q1, q2⟩ := q
    rcases List.mem_cons.mp hp with h1 | h2
    · have hq : ¬ (q1 = k) := by
        intro hq
        apply hne
        rw [h1]
        exact hq
      rw [h1]
      simp [replaceKey, hq]
    · by_cases hq : q1 = k
      · simp only [replaceKey, if_pos hq]
        exact List.mem_cons_of_mem _ (ih h2)
      · simp only [replaceKey, if_neg hq]
        exact List.mem_cons_of_mem _ (ih h2)

theorem mem_dictSet_of_ne {α : Type} (d : List (String × α)) (k : String) (v : α)
    (p : String × α) (hp : p ∈ d) (hne : p.1 ≠ k) : p ∈ dictSet d k v := by
  unfold dictSet
  split
  · exact mem_replaceKey_of_ne d k v p hp hne
  · exact List.mem_append_left _ hp

theorem fieldEntries_mem (l : List (String × Attr)) (k : String) (f : MongoField)
    (h : (k, Attr.field f) ∈ l) : (k, f) ∈ fieldEntries l := by
  unfold fieldEntries
  rw [List.mem_filterMap]
  exact ⟨(k, Attr.field f), h, rfl⟩

theorem fieldEntries_mem_inv (l : List (String × Attr)) (p : String × MongoField)
    (h : p ∈ fieldEntries l) : (p.1, Attr.field p.2) ∈ l := by
  unfold fieldEntries at h
  rw [List.mem_filterMap] at h
  obtain ⟨q, hq, hqe⟩ := h
  obtain ⟨q1, q2⟩ := q
  cases q2 with
  | field f =>
    simp only at hqe
    have h1 : q1 = p.1 := congrArg Prod.fst (Option.some.inj hqe)
    have h2 : f = p.2 := congrArg Prod.snd (Option.some.inj hqe)
    rw [← h1, ← h2]
    exact hq
  | plain v => simp at hqe

theorem countP_two {α : Type} (pred : α → Bool) (l : List α) (a b : α)
    (ha : a ∈ l) (hb : b ∈ l) (hab : a ≠ b)
    (pa : pred a = true) (pb : pred b = true) : 2 ≤ l.countP pred := by
  induction l with
  | nil => simp at ha
  | cons x rest ih =>
    rcases List.mem_cons.mp ha with ha1 | ha2
    · have hbr : b ∈ rest := by
        rcases List.mem_cons.mp hb with hb1 | hb2
        · exfalso
          apply hab
          rw [ha1, hb1]
        · exact hb2
      have h1 : 0 < rest.countP pred := List.countP_pos_iff.mpr ⟨b, hbr, pb⟩
      have hx : (if pred x = true then 1 else 0) = 1 := by
        rw [← ha1, pa]
        simp
      rw [List.countP_cons, hx]
      omega
    · rcases List.mem_cons.mp hb with hb1 | hb2
      · have h1 : 0 < rest.countP pred := List.countP_pos_iff.mpr ⟨a, ha2, pa⟩
        have hx : (if pred x = true then 1 else 0) = 1 := by
          rw [← hb1, pb]
          simp
        rw [List.countP_cons, hx]
        omega
      · have := ih ha2 hb2
        rw [List.countP_cons]
        omega

theorem injected_keys (attrs : List (String × Attr)) (h : ∀ p ∈ attrs, p.1 ≠ "") :
    ∀ p ∈ dictSet attrs "_id" (.field _IdField), p.1 ≠ "" := by
  intro p hp
  rcases dictSet_keys attrs "_id" (.field _IdField) p hp with h1 | ⟨q, hq, hqe⟩
  · rw [h1]
    simp
  · rw [hqe]
    exact h q hq

theorem metaNew_ok_iff_loop (name : String) (attrs : List (String × Attr))
    (h : name ≠ "Model") :
    (∃ sch, modelMetaclassNew name attrs = .ok (some sch)) ↔
      (∃ st', regLoop (dictSet attrs "_id" (.field _IdField))
        ⟨[], [], Option.none, []⟩ = .ok st') := by
  constructor
  · intro hok
    obtain ⟨sch, hsch⟩ := hok
    unfold modelMetaclassNew at hsch
    rw [if_neg h] at hsch
    cases hloop : regLoop (dictSet attrs "_id" (.field _IdField))
        ⟨[], [], Option.none, []⟩ with
    | error e =>
      rw [hloop] at hsch
      exact absurd hsch (by simp)
    | ok st' => exact ⟨st', rfl⟩
  · intro hok
    obtain ⟨st', hst'⟩ := hok
    have htruthy : truthyStrOpt st'.pk = true := by
      apply regLoop_pk_of_mem _ _ _ "_id" _IdField
        (dictSet_mem_self attrs "_id" (.field _IdField)) rfl (by simp) hst'
    refine ⟨⟨match dictGet attrs "__table__" with
      | some a => if attrTruthy a then a else .plain (.str (pyLower name))
      | Option.none => .plain (.str (pyLower name)),
      st'.ms, st'.pk.getD "", st'.fs, st'.out⟩, ?_⟩
    unfold modelMetaclassNew
    rw [if_neg h, hst']
    simp [htruthy]

theorem metaNew_error_eq (name : String) (attrs : List (String × Attr)) (e : Exc)
    (h : name ≠ "Model") (he : modelMetaclassNew name attrs = .error e) :
    e = dupPkError := by
  unfold modelMetaclassNew at he
  rw [if_neg h] at he
  cases hloop : regLoop (dictSet attrs "_id" (.field _IdField))
      ⟨[], [], Option.none, []⟩ with
  | error e' =>
    rw [hloop] at he
    have h1 : e' = e := Except.error.inj he
    rw [← h1]
    exact regLoop_error_eq _ _ _ hloop
  | ok st' =>
    exfalso
    have htruthy : truthyStrOpt st'.pk = true := by
      apply regLoop_pk_of_mem _ _ _ "_id" _IdField
        (dictSet_mem_self attrs "_id" (.field _IdField)) rfl (by simp) hloop
    rw [hloop] at he
    simp [htruthy] at he

/-! Helper lemmas about the document-model operations. -/

theorem validateFieldsAux_ok_iff (d ca : Dict) (l : List (String × MongoField)) :
    validateFieldsAux d ca l = .ok () ↔
      ∀ p ∈ l, p.2.validate ((pyGetattr d ca p.1).getD Value.none) = .ok () := by
  induction l with
  | nil => simp [validateFieldsAux]
  | cons p rest ih =>
    obtain ⟨k, f⟩ := p
    constructor
    · intro h q hq
      simp only [validateFieldsAux] at h
      cases hv : f.validate ((pyGetattr d ca k).getD Value.none) with
      | error e =>
        rw [hv] at h
        exact absurd h (by simp)
      | ok u =>
        cases u
        rw [hv] at h
        rcases List.mem_cons.mp hq with h1 | h2
        · rw [h1]
          exact hv
        · exact (ih.mp h) q h2
    · intro h
      simp only [validateFieldsAux]
      have hv := h (k, f) (List.mem_cons_self _ _)
      rw [hv]
      exact ih.mpr (fun q hq => h q (List.mem_cons_of_mem _ hq))

theorem validateFieldsAux_error (d ca : Dict) (l : List (String × MongoField)) (e : Exc) :
    validateFieldsAux d ca l = .error e →
      ∃ l1 p l2, l = l1 ++ p :: l2 ∧
        (∀ q ∈ l1, q.2.validate ((pyGetattr d ca q.1).getD Value.none) = .ok ()) ∧
        p.2.validate ((pyGetattr d ca p.1).getD Value.none) = .error e := by
  induction l with
  | nil =>
    intro h
    simp [validateFieldsAux] at h
  | cons p rest ih =>
    intro h
    obtain ⟨k, f⟩ := p
    simp only [validateFieldsAux] at h
    cases hv : f.validate ((pyGetattr d ca k).getD Value.none) with
    | error e' =>
      rw [hv] at h
      have he : e' = e := Except.error.inj h
      refine ⟨[], (k, f), rest, by simp, by simp, ?_⟩
      rw [hv, he]
    | ok u =>
      cases u
      rw [hv] at h
      obtain ⟨l1, q, l2, hsplit, hok, herr⟩ := ih h
      refine ⟨(k, f) :: l1, q, l2, by rw [hsplit]; rfl, ?_, herr⟩
      intro r hr
      rcases List.mem_cons.mp hr with h1 | h2
      · rw [h1]
        exact hv
      · exact hok r h2

theorem queryOfAux_ok (d ca : Dict) (mod : List String) :
    ∀ acc : Dict, (∀ k ∈ mod, (pyGetattr d ca k).isSome) →
      ∃ q, queryOfAux d ca mod acc = .ok q ∧
        ∀ k, dictGet q k =
          if k ∈ mod then some ((pyGetattr d ca k).getD Value.none)
          else dictGet acc k := by
  induction mod with
  | nil =>
    intro acc _
    refine ⟨acc, rfl, ?_⟩
    intro k
    simp
  | cons k0 rest ih =>
    intro acc hsome
    have h0 : (pyGetattr d ca k0).isSome := hsome k0 (List.mem_cons_self _ _)
    obtain ⟨v, hv⟩ := Option.isSome_iff_exists.mp h0
    have hrest : ∀ k ∈ rest, (pyGetattr d ca k).isSome :=
      fun k hk => hsome k (List.mem_cons_of_mem _ hk)
    obtain ⟨q, hq, hget⟩ := ih (dictSet acc k0 v) hrest
    refine ⟨q, ?_, ?_⟩
    · simp only [queryOfAux, hv]
      exact hq
    · intro k
      rw [hget k]
      by_cases hk : k ∈ rest
      · simp [hk]
      · by_cases hk0 : k = k0
        · rw [if_neg hk, if_pos (by simp [hk0]), hk0, dictGet_dictSet_self, hv]
          simp
        · rw [if_neg hk, if_neg (by simp [hk0, hk]),
            dictGet_dictSet_ne _ _ _ _ (fun hh => hk0 hh.symm)]

theorem strDict_insert_doc (cls : Schema) (d : Dict) (f0 : MongoField)
    (hid : dictGet cls.mappings "_id" = some f0)
    (hfalsy : truthy (effValue cls d "_id") = false) :
    ∃ doc, Model.strDict cls d = .ok doc ∧
      dictGet doc "_id" = Option.none ∧
      ∀ k f, dictGet cls.mappings k = some f → k ≠ "_id" →
        dictGet doc k = some (effValue cls d k) := by
  have hmap := dictGet_mapSnd cls.mappings (fun k => effValue cls d k) "_id"
  rw [hid] at hmap
  simp only [Option.map_some'] at hmap
  refine ⟨dictPop (cls.mappings.map (fun p => (p.1, effValue cls d p.1))) "_id", ?_, ?_, ?_⟩
  · simp only [Model.strDict]
    rw [hmap]
    simp [hfalsy]
  · exact dictGet_dictPop_self _ "_id"
  · intro k f hk hkne
    rw [dictGet_dictPop_ne _ _ _ hkne]
    have := dictGet_mapSnd cls.mappings (fun k => effValue cls d k) k
    rw [hk] at this
    simpa using this

theorem metaNew_ne_ok_none (name : String) (attrs : List (String × Attr))
    (hname : name ≠ "Model") : modelMetaclassNew name attrs ≠ .ok Option.none := by
  intro h
  unfold modelMetaclassNew at h
  rw [if_neg hname] at h
  cases hloop : regLoop (dictSet attrs "_id" (.field _IdField))
      ⟨[], [], Option.none, []⟩ with
  | error e =>
    rw [hloop] at h
    exact absurd h (by simp)
  | ok st' =>
    rw [hloop] at h
    by_cases ht : truthyStrOpt st'.pk = true
    · simp [ht] at h
    · simp [ht] at h

/-! The claim theorems. -/

/-- C9: for every field descriptor with enforce_type (type_check) set whose
supplied validator, if any, never signals a TypeMismatchError, validate(v)
fails with a TypeMismatchError exactly when v is not an instance of the
declared type; and when v is an instance, the supplied validator is
invoked and its outcome — success, or a raised error propagated
unchanged — is the outcome of validate. -/
theorem c9_type_check_iff (f : MongoField) (v : Value)
    (htc : f.type_check = true)
    (hbenign : ∀ g w e, f.validation = some g → g w = some e →
      ∀ m, e ≠ Exc.typeError m) :
    ((∃ m, f.validate v = .error (.typeError m)) ↔ isinstance v f.field_type = false)
    ∧ (isinstance v f.field_type = true →
        ∀ g, f.validation = some g →
          ((g v = Option.none → f.validate v = .ok ()) ∧
           (∀ e, g v = some e → f.validate v = .error e))) := by
  constructor
  · constructor
    · rintro ⟨m, hm⟩
      cases hi : isinstance v f.field_type with
      | false => rfl
      | true =>
        exfalso
        unfold MongoField.validate at hm
        rw [if_neg (by simp [hi])] at hm
        cases hval : f.validation with
        | none =>
          simp only [hval] at hm
          exact absurd hm (by simp)
        | some g =>
          simp only [hval] at hm
          cases hg : g v with
          | none =>
            simp only [hg] at hm
            exact absurd hm (by simp)
          | some e =>
            simp only [hg] at hm
            have he : e = .typeError m := Except.error.inj hm
            exact hbenign g v e hval hg m he
    · intro hninst
      refine ⟨"value is not an instance of the field type", ?_⟩
      unfold MongoField.validate
      rw [if_pos (by simp [htc, hninst])]
  · intro hi g hg
    constructor
    · intro hnone
      unfold MongoField.validate
      rw [if_neg (by simp [hi])]
      simp only [hg, hnone]
    · intro e he
      unfold MongoField.validate
      rw [if_neg (by simp [hi])]
      simp only [hg, he]

/-- C9 witness: the type-checked name field of the example User model,
applied at a non-string value. -/
theorem c9_witness :
    ((∃ m, userNameField.validate (Value.int 3) = .error (.typeError m)) ↔
      isinstance (Value.int 3) userNameField.field_type = false)
    ∧ (isinstance (Value.int 3) userNameField.field_type = true →
        ∀ g, userNameField.validation = some g →
          ((g (Value.int 3) = Option.none →
             userNameField.validate (Value.int 3) = .ok ()) ∧
           (∀ e, g (Value.int 3) = some e →
             userNameField.validate (Value.int 3) = .error e))) := by
  apply c9_type_check_iff userNameField (Value.int 3) rfl
  intro g w e hg
  exact absurd hg (by simp [userNameField, StringField])

/-- C3: for every attribute write through Model.__setattr__, a mapped
attribute is validated first — a raised validation error propagates
unchanged and leaves both the dirty list and the stored values
untouched — and a successful validation appends exactly the attribute
name to the dirty list and stores the value; an unmapped attribute is
stored with no validation and no dirty tracking. -/
theorem c3_setattr_validate_dirty (cls : Schema) (key : String) (value : Value)
    (mod : List String) (d : Dict) :
    (∀ f, dictGet cls.mappings key = some f →
      (∀ e, f.validate value = .error e →
        Model.setattr cls key value mod d = (.error e, mod, d)) ∧
      (f.validate value = .ok () →
        Model.setattr cls key value mod d = (.ok (), mod ++ [key], dictSet d key value)))
    ∧ (dictGet cls.mappings key = Option.none →
        Model.setattr cls key value mod d = (.ok (), mod, dictSet d key value)) := by
  constructor
  · intro f hf
    constructor
    · intro e he
      unfold Model.setattr
      simp only [hf, he]
    · intro hok
      unfold Model.setattr
      simp only [hf, hok]
  · intro hn
    unfold Model.setattr
    simp only [hn]

/-- C3 witness: on the example User model, an invalid write to the
type-checked name field raises and changes nothing, a valid write
appends one dirty entry and stores the value, and a write to an
unmapped attribute stores without tracking. -/
theorem c3_witness :
    Model.setattr userSchema "name" (Value.int 3) [] [] =
      (.error (.typeError "value is not an instance of the field type"), [], [])
    ∧ Model.setattr userSchema "name" (Value.str "bob") [] [] =
      (.ok (), ["name"], [("name", Value.str "bob")])
    ∧ Model.setattr userSchema "other" (Value.int 1) [] [] =
      (.ok (), [], [("other", Value.int 1)]) := by
  refine ⟨?_, ?_, ?_⟩
  · exact ((c3_setattr_validate_dirty userSchema "name" (Value.int 3) [] []).1
      userNameField rfl).1 (.typeError "value is not an instance of the field type") rfl
  · exact ((c3_setattr_validate_dirty userSchema "name" (Value.str "bob") [] []).1
      userNameField rfl).2 rfl
  · exact (c3_setattr_validate_dirty userSchema "other" (Value.int 1) [] []).2 rfl

/-- C2: after any successful registration the mappings dict binds the
attribute name _id to the internal identity descriptor, whose database
name is _id, whose type is the opaque ObjectId type, which is the
primary key, and whose optional checks (required, unique, type_check,
validator) are all disabled — whether or not the class body declared an
identity field. -/
theorem c2_implicit_id_field (name : String) (attrs : List (String × Attr)) (sch : Schema)
    (h : modelMetaclassNew name attrs = .ok (some sch)) :
    dictGet sch.mappings "_id" = some _IdField
    ∧ _IdField.field_name = "_id" ∧ _IdField.field_type = PyType.objectId
    ∧ _IdField.pk = true ∧ _IdField.required = false ∧ _IdField.unique = false
    ∧ _IdField.type_check = false ∧ _IdField.validation = Option.none := by
  refine ⟨?_, rfl, rfl, rfl, rfl, rfl, rfl, rfl⟩
  by_cases hname : name = "Model"
  · exfalso
    unfold modelMetaclassNew at h
    rw [if_pos hname] at h
    exact absurd h (by simp)
  · unfold modelMetaclassNew at h
    rw [if_neg hname] at h
    cases hloop : regLoop (dictSet attrs "_id" (.field _IdField))
        ⟨[], [], Option.none, []⟩ with
    | error e =>
      rw [hloop] at h
      exact absurd h (by simp)
    | ok st' =>
      rw [hloop] at h
      by_cases ht : truthyStrOpt st'.pk = true
      · simp only [ht, if_true] at h
        have hsch := Option.some.inj (Except.ok.inj h)
        have hms : sch.mappings = st'.ms := by
          rw [← hsch]
        have hfe := regLoop_ok_ms _ _ _ hloop
        rw [hms, hfe]
        simp only [List.nil_append]
        apply dictGet_of_all
        · exact ⟨("_id", _IdField),
            fieldEntries_mem _ _ _ (dictSet_mem_self attrs "_id" (.field _IdField)), rfl⟩
        · intro p hp hpk
          have hinv := fieldEntries_mem_inv _ p hp
          have hall := dictSet_all_eq attrs "_id" (Attr.field _IdField)
            (p.1, Attr.field p.2) (by rw [hpk] at hinv ⊢; exact hinv) (by rw [hpk])
          simp only at hall
          injection hall
      · simp [ht] at h

/-- C2 witness: the example User model, which declares no identity
field, carries the injected identity descriptor after registration. -/
theorem c2_witness :
    dictGet userSchema.mappings "_id" = some _IdField
    ∧ _IdField.field_name = "_id" ∧ _IdField.field_type = PyType.objectId
    ∧ _IdField.pk = true ∧ _IdField.required = false ∧ _IdField.unique = false
    ∧ _IdField.type_check = false ∧ _IdField.validation = Option.none :=
  c2_implicit_id_field "User" userAttrs userSchema rfl

/-- C1 counterexample: declaring an explicit primary-key field in the
class body does NOT always make registration fail. When it is declared
under the attribute name _id itself, the unconditional dict assignment
attrs[_id] = _IdField() overwrites it in place, leaving exactly one
primary-key candidate, and registration succeeds. -/
theorem c1_counterexample :
    (⟨"uid", .objectId, Value.none, true, false, false, false, Option.none⟩
        : MongoField).pk = true
    ∧ (∃ sch, modelMetaclassNew "User"
        [("_id", Attr.field
          ⟨"uid", .objectId, Value.none, true, false, false, false, Option.none⟩)]
        = .ok (some sch)) := by
  constructor
  · rfl
  · exact ⟨⟨.plain (.str "user"), [("_id", _IdField)], "_id", [],
      [("_id", Value.none)]⟩, rfl⟩

/-- C1 (amended): for every model type other than the root base type,
with nonempty attribute names, registration succeeds iff exactly one
mapped field has the primary-key flag after the implicit identity-field
injection; declaring an explicit primary-key field under any attribute
name other than _id makes registration fail with the
duplicate-primary-key error; a primary-key field declared under the
attribute name _id itself is silently overwritten by the injected
identity field instead of being rejected. -/
theorem c1_registration_pk_iff (name : String) (attrs : List (String × Attr))
    (hname : name ≠ "Model") (hkeys : ∀ p ∈ attrs, p.1 ≠ "") :
    ((∃ sch, modelMetaclassNew name attrs = .ok (some sch)) ↔
      pkCountAfterInjection attrs = 1)
    ∧ (∀ k f, (k, Attr.field f) ∈ attrs → f.pk = true → k ≠ "_id" →
        modelMetaclassNew name attrs = .error dupPkError) := by
  have hinjkeys := injected_keys attrs hkeys
  have hloopiff := regLoop_ok_iff (dictSet attrs "_id" (.field _IdField))
    ⟨[], [], Option.none, []⟩ hinjkeys
  have hiff0 : (∃ st', regLoop (dictSet attrs "_id" (.field _IdField))
      ⟨[], [], Option.none, []⟩ = .ok st') ↔
      pkFieldCount (dictSet attrs "_id" (.field _IdField)) ≤ 1 := by
    simpa [truthyStrOpt] using hloopiff
  have hge1 : 1 ≤ pkFieldCount (dictSet attrs "_id" (.field _IdField)) := by
    have hmem : ("_id", _IdField) ∈ fieldEntries (dictSet attrs "_id" (.field _IdField)) :=
      fieldEntries_mem _ _ _ (dictSet_mem_self attrs "_id" (.field _IdField))
    have hpos : 0 < (fieldEntries (dictSet attrs "_id" (.field _IdField))).countP
        (fun p => p.2.pk) :=
      List.countP_pos_iff.mpr ⟨("_id", _IdField), hmem, rfl⟩
    unfold pkFieldCount
    omega
  constructor
  · rw [metaNew_ok_iff_loop name attrs hname, hiff0]
    unfold pkCountAfterInjection
    omega
  · intro k f hmem hf hk
    have hm1 : ("_id", _IdField) ∈ fieldEntries (dictSet attrs "_id" (.field _IdField)) :=
      fieldEntries_mem _ _ _ (dictSet_mem_self attrs "_id" (.field _IdField))
    have hm2 : (k, f) ∈ fieldEntries (dictSet attrs "_id" (.field _IdField)) :=
      fieldEntries_mem _ _ _ (mem_dictSet_of_ne attrs "_id" (.field _IdField) _ hmem hk)
    have hne : ("_id", _IdField) ≠ (k, f) := by
      intro hh
      apply hk
      exact (congrArg Prod.fst hh).symm
    have h2 : 2 ≤ pkFieldCount (dictSet attrs "_id" (.field _IdField)) := by
      have := countP_two (fun p => p.2.pk) _ ("_id", _IdField) (k, f) hm1 hm2 hne rfl hf
      unfold pkFieldCount
      omega
    have hnok : ¬ ∃ sch, modelMetaclassNew name attrs = .ok (some sch) := by
      rw [metaNew_ok_iff_loop name attrs hname, hiff0]
      omega
    cases hres : modelMetaclassNew name attrs with
    | ok o =>
      cases o with
      | none => exact absurd hres (metaNew_ne_ok_none name attrs hname)
      | some sch => exact absurd ⟨sch, hres⟩ hnok
    | error e =>
      rw [metaNew_error_eq name attrs e hname hres]

/-- C1 witness: the example User model (one primary-key candidate, the
injected identity field) registers; adding an explicit primary-key
field under a regular attribute name fails with the duplicate error. -/
theorem c1_witness :
    pkCountAfterInjection userAttrs = 1
    ∧ (∃ sch, modelMetaclassNew "User" userAttrs = .ok (some sch))
    ∧ modelMetaclassNew "User"
        [("uid", Attr.field
          ⟨"uid", .objectId, Value.none, true, false, false, false, Option.none⟩)]
        = .error dupPkError := by
  refine ⟨rfl, ?_, ?_⟩
  · exact (c1_registration_pk_iff "User" userAttrs (by decide)
      (by intro p hp; fin_cases hp <;> decide)).1.mpr rfl
  · exact (c1_registration_pk_iff "User" _ (by decide)
      (by intro p hp; fin_cases hp <;> decide)).2 "uid"
      ⟨"uid", .objectId, Value.none, true, false, false, false, Option.none⟩
      (by simp) rfl (by decide)

/-- C10: for every class-body input of a model type other than the root
base type, a failing registration always fails with the
duplicate-primary-key error and never with the missing-primary-key
error: the identity field injected before the scan guarantees a
primary-key candidate, so the zero-primary-key branch is unreachable. -/
theorem c10_no_missing_pk_error (name : String) (attrs : List (String × Attr)) (e : Exc)
    (hname : name ≠ "Model") (he : modelMetaclassNew name attrs = .error e) :
    e = dupPkError ∧ e ≠ noPkError := by
  have h1 := metaNew_error_eq name attrs e hname he
  refine ⟨h1, ?_⟩
  rw [h1]
  intro hh
  exact absurd (Exc.runtimeError.inj hh) (by decide)

/-- C10 witness: a schema with an explicit primary-key field under a
regular name fails, and the error is the duplicate-primary-key one. -/
theorem c10_witness :
    dupPkError = dupPkError ∧ dupPkError ≠ noPkError :=
  c10_no_missing_pk_error "User"
    [("uid", Attr.field
      ⟨"uid", .objectId, Value.none, true, false, false, false, Option.none⟩)]
    dupPkError (by decide) rfl

theorem isNone_true_eq (v : Value) (h : v.isNone = true) : v = Value.none := by
  cases v
  · rfl
  all_goals simp [Value.isNone] at h

/-- C4: dirty-attribute tracking is NOT per instance. The __modified__
list is created once by the metaclass as a class attribute and instances
never rebind it, so every instance of a model class shares one list: a
validated write to one fresh instance of the example User model makes
the dirty list observed by a second, untouched fresh instance equal to
[name] instead of staying empty. -/
theorem c4_shared_dirty_list_bug :
    instDirtyAttrs ⟨userSchema, []⟩ newInstance = []
    ∧ (rtSetattr ⟨userSchema, []⟩ newInstance "name" (Value.str "bob")).1 = .ok ()
    ∧ (rtSetattr ⟨userSchema, []⟩ newInstance "name" (Value.str "bob")).2.2 =
        [("name", Value.str "bob")]
    ∧ instDirtyAttrs
        (rtSetattr ⟨userSchema, []⟩ newInstance "name" (Value.str "bob")).2.1
        newInstance = ["name"] :=
  ⟨rfl, rfl, rfl, rfl⟩

/-- C8: in get_value_or_default the default-resolution path runs only
when the field descriptor own default is falsy — with a truthy default
the call returns the read value unchanged, with no store and no dirty
tracking — and a stored value that is not None, even a falsy one such
as 0, is returned as is and never replaced by the default. -/
theorem c8_falsy_default_trigger (cls : Schema) (key : String)
    (mod : List String) (d : Dict) (f : MongoField)
    (hf : dictGet cls.mappings key = some f) :
    (truthy f.default = true →
      Model.get_value_or_default cls key mod d =
        (.ok ((pyGetattr d cls.classAttrs key).getD Value.none), mod, d))
    ∧ (∀ v, pyGetattr d cls.classAttrs key = some v → v.isNone = false →
        Model.get_value_or_default cls key mod d = (.ok v, mod, d)) := by
  constructor
  · intro ht
    unfold Model.get_value_or_default
    by_cases hn : ((pyGetattr d cls.classAttrs key).getD Value.none).isNone = true
    · simp only [hn, if_true, hf, ht]
    · simp only [hn, if_false, Bool.false_eq_true]
  · intro v hv hvn
    unfold Model.get_value_or_default
    have hgd : (pyGetattr d cls.classAttrs key).getD Value.none = v := by
      rw [hv]
      rfl
    rw [hgd]
    simp only [hvn, if_false, Bool.false_eq_true]

/-- C8 witness: on the example User model, the generic field with truthy
default -9999 resolves to the registered class value on a fresh
instance, and a falsy stored value 0 is returned unchanged. -/
theorem c8_witness :
    Model.get_value_or_default userSchema "test_field" [] [] =
      (.ok (Value.int (-9999)), [], [])
    ∧ Model.get_value_or_default userSchema "test_field" []
        [("test_field", Value.int 0)] =
      (.ok (Value.int 0), [], [("test_field", Value.int 0)]) := by
  constructor
  · exact (c8_falsy_default_trigger userSchema "test_field" [] [] testField rfl).1 rfl
  · exact (c8_falsy_default_trigger userSchema "test_field" []
      [("test_field", Value.int 0)] testField rfl).2 (Value.int 0) rfl rfl

/-- C7 counterexample: on the example User model, with the generic field
(default -9999) explicitly holding None, get_value_or_default returns
None and stores nothing — it does not resolve, store and return the
descriptor default, because the source only resolves the default when
the default itself is falsy. -/
theorem c7_counterexample :
    (Model.get_value_or_default userSchema "test_field" []
      [("test_field", Value.none)]).1 = .ok Value.none
    ∧ (Model.get_value_or_default userSchema "test_field" []
      [("test_field", Value.none)]).2.2 = [("test_field", Value.none)]
    ∧ (.ok Value.none : Except Exc Value) ≠ .ok (Value.int (-9999))
    ∧ Value.none ≠ Value.int (-9999) := by
  refine ⟨rfl, rfl, ?_, ?_⟩
  · intro h
    injection h with h1
    exact Value.noConfusion h1
  · intro h
    exact Value.noConfusion h

/-- C7 (amended): get_value_or_default returns the read value when it is
not None; when the read value is None, the default is resolved and
persisted only if the descriptor default is itself falsy — the resolved
value (the default, invoked were it callable, though falsy defaults are
never callable) is then stored through the regular validated write,
appending the attribute to the dirty list, and returned; a raised
validation error from that store propagates with the state untouched;
and a truthy default, callable or not, is never applied: None is
returned and nothing is stored. -/
theorem c7_default_resolution (cls : Schema) (key : String)
    (mod : List String) (d : Dict) (f : MongoField)
    (hf : dictGet cls.mappings key = some f) :
    (∀ v, pyGetattr d cls.classAttrs key = some v → v.isNone = false →
      Model.get_value_or_default cls key mod d = (.ok v, mod, d))
    ∧ (((pyGetattr d cls.classAttrs key).getD Value.none).isNone = true →
        truthy f.default = true →
        Model.get_value_or_default cls key mod d = (.ok Value.none, mod, d))
    ∧ (((pyGetattr d cls.classAttrs key).getD Value.none).isNone = true →
        truthy f.default = false →
        f.validate (callValue f.default) = .ok () →
        Model.get_value_or_default cls key mod d =
          (.ok (callValue f.default), mod ++ [key],
            dictSet d key (callValue f.default)))
    ∧ (∀ e, ((pyGetattr d cls.classAttrs key).getD Value.none).isNone = true →
        truthy f.default = false →
        f.validate (callValue f.default) = .error e →
        Model.get_value_or_default cls key mod d = (.error e, mod, d)) := by
  refine ⟨?_, ?_, ?_, ?_⟩
  · intro v hv hvn
    unfold Model.get_value_or_default
    have hgd : (pyGetattr d cls.classAttrs key).getD Value.none = v := by
      rw [hv]
      rfl
    rw [hgd]
    simp only [hvn, if_false, Bool.false_eq_true]
  · intro hn ht
    unfold Model.get_value_or_default
    have hval : (pyGetattr d cls.classAttrs key).getD Value.none = Value.none :=
      isNone_true_eq _ hn
    rw [hval]
    simp only [hf, ht]
    rfl
  · intro hn ht hvok
    unfold Model.get_value_or_default
    have hval : (pyGetattr d cls.classAttrs key).getD Value.none = Value.none :=
      isNone_true_eq _ hn
    rw [hval]
    simp only [hf, ht, Bool.false_eq_true, if_false]
    unfold Model.setattr
    simp only [hf, hvok]
    simp [Value.isNone]
  · intro e hn ht hverr
    unfold Model.get_value_or_default
    have hval : (pyGetattr d cls.classAttrs key).getD Value.none = Value.none :=
      isNone_true_eq _ hn
    rw [hval]
    simp only [hf, ht, Bool.false_eq_true, if_false]
    unfold Model.setattr
    simp only [hf, hverr]
    simp [Value.isNone]

/-- C7 witness: on the example User model, a stored None with the truthy
default -9999 yields None unchanged; on the identity field (default
None, falsy) the resolution path stores None through the validated
write and marks the identity attribute dirty. -/
theorem c7_witness :
    Model.get_value_or_default userSchema "test_field" []
      [("test_field", Value.none)] =
      (.ok Value.none, [], [("test_field", Value.none)])
    ∧ Model.get_value_or_default userSchema "_id" [] [] =
      (.ok Value.none, ["_id"], [("_id", Value.none)]) := by
  constructor
  · exact (c7_default_resolution userSchema "test_field" []
      [("test_field", Value.none)] testField rfl).2.1 rfl rfl
  · exact (c7_default_resolution userSchema "_id" [] [] _IdField rfl).2.2.1 rfl rfl rfl

/-- C6: validate_fields checks every mapped field against the value
attribute lookup yields (the stored value, else the registered class
default, else the empty value None when nothing is bound), succeeding
iff every field validates, short-circuiting at the first failure; and a
failing validate_fields makes save abort with that error, leaving the
dirty list and the stored values untouched. -/
theorem c6_validate_fields_save_abort (cls : Schema) (mod : List String) (d : Dict) :
    (Model.validate_fields cls d = .ok () ↔
      ∀ p ∈ cls.mappings, p.2.validate (effValue cls d p.1) = .ok ())
    ∧ (∀ e, Model.validate_fields cls d = .error e →
        ∃ l1 p l2, cls.mappings = l1 ++ p :: l2 ∧
          (∀ q ∈ l1, q.2.validate (effValue cls d q.1) = .ok ()) ∧
          p.2.validate (effValue cls d p.1) = .error e)
    ∧ (∀ k, pyGetattr d cls.classAttrs k = Option.none →
        effValue cls d k = Value.none)
    ∧ (∀ e, Model.validate_fields cls d = .error e →
        Model.save cls mod d = (.error e, mod, d)) := by
  refine ⟨?_, ?_, ?_, ?_⟩
  · exact validateFieldsAux_ok_iff d cls.classAttrs cls.mappings
  · intro e he
    exact validateFieldsAux_error d cls.classAttrs cls.mappings e he
  · intro k h
    unfold effValue
    rw [h]
    rfl
  · intro e he
    unfold Model.save
    simp only [he]

/-- C6 witness: on the example User model, an instance whose name holds
a string validates; one whose name holds an integer makes save abort
with the type error and the state untouched. -/
theorem c6_witness :
    Model.validate_fields userSchema [("name", Value.str "a")] = .ok ()
    ∧ Model.save userSchema ["name"] [("name", Value.int 5)] =
        (.error (.typeError "value is not an instance of the field type"),
         ["name"], [("name", Value.int 5)]) := by
  constructor
  · refine (c6_validate_fields_save_abort userSchema []
      [("name", Value.str "a")]).1.mpr ?_
    intro p hp
    fin_cases hp
    · rfl
    · rfl
    · rfl
  · exact (c6_validate_fields_save_abort userSchema ["name"]
      [("name", Value.int 5)]).2.2.2
      (.typeError "value is not an instance of the field type") rfl

/-- C5: when validate_fields passes, save with a falsy identity value
takes the insert path — handing over the rendered document, which binds
every mapped non-identity attribute to its current value and omits the
valueless identity attribute — and clears the dirty list; save with a
truthy identity value takes the update path, whose set-style payload
binds exactly the attributes in the dirty list at call time to their
current values, and clears the dirty list. The dirty list is cleared in
both branches unconditionally: the persistence step is a logging stub
whose outcome is never consulted. -/
theorem c5_save_paths_clear_dirty (cls : Schema) (mod : List String) (d : Dict)
    (hvf : Model.validate_fields cls d = .ok ())
    (hmod : ∀ k ∈ mod, (pyGetattr d cls.classAttrs k).isSome)
    (f0 : MongoField) (hid : dictGet cls.mappings "_id" = some f0) :
    (truthy (effValue cls d "_id") = false →
      ∃ doc, Model.save cls mod d = (.ok (.insert cls.table_name doc), [], d)
        ∧ dictGet doc "_id" = Option.none
        ∧ ∀ k f, dictGet cls.mappings k = some f → k ≠ "_id" →
            dictGet doc k = some (effValue cls d k))
    ∧ (truthy (effValue cls d "_id") = true →
      ∃ q, Model.save cls mod d = (.ok (.update (effValue cls d "_id") q), [], d)
        ∧ ∀ k, dictGet q k =
            if k ∈ mod then some (effValue cls d k) else Option.none) := by
  constructor
  · intro hfalsy
    obtain ⟨doc, hdoc, hdocid, hdocget⟩ := strDict_insert_doc cls d f0 hid hfalsy
    refine ⟨doc, ?_, hdocid, hdocget⟩
    unfold Model.save
    simp only [hvf, hfalsy, Bool.false_eq_true, if_false, hdoc]
  · intro htruthy
    obtain ⟨q, hq, hqget⟩ := queryOfAux_ok d cls.classAttrs mod [] hmod
    refine ⟨q, ?_, ?_⟩
    · unfold Model.save
      simp only [hvf, htruthy, if_true]
      unfold queryOf
      simp only [hq]
    · intro k
      rw [hqget k]
      by_cases hk : k ∈ mod
      · simp only [hk, if_true]
        rfl
      · simp only [hk, if_false]
        rfl

/-- C5 witness: on the example User model with the name attribute dirty,
save on an instance with no identity value follows the insert path and
clears the dirty list; save on an instance with an ObjectId identity
follows the update path with the payload restricted to the dirty name
attribute, and clears the dirty list. -/
theorem c5_witness :
    (∃ doc, Model.save userSchema ["name"] [("name", Value.str "bob")] =
      (.ok (.insert userSchema.table_name doc), [], [("name", Value.str "bob")])
      ∧ dictGet doc "_id" = Option.none
      ∧ ∀ k f, dictGet userSchema.mappings k = some f → k ≠ "_id" →
          dictGet doc k = some (effValue userSchema [("name", Value.str "bob")] k))
    ∧ (∃ q, Model.save userSchema ["name"]
        [("_id", Value.oid 1), ("name", Value.str "bob")] =
      (.ok (.update (effValue userSchema
          [("_id", Value.oid 1), ("name", Value.str "bob")] "_id") q), [],
        [("_id", Value.oid 1), ("name", Value.str "bob")])
      ∧ ∀ k, dictGet q k =
          if k ∈ (["name"] : List String) then
            some (effValue userSchema
              [("_id", Value.oid 1), ("name", Value.str "bob")] k)
          else Option.none) := by
  constructor
  · refine (c5_save_paths_clear_dirty userSchema ["name"]
      [("name", Value.str "bob")] rfl ?_ _IdField rfl).1 rfl
    intro k hk
    fin_cases hk
    rfl
  · refine (c5_save_paths_clear_dirty userSchema ["name"]
      [("_id", Value.oid 1), ("name", Value.str "bob")] rfl ?_ _IdField rfl).2 rfl
    intro k hk
    fin_cases hk
    rfl
